import Mathlib

/-!
Verification of the `geo` package: a shallow embedding of its data model and
algorithms, with theorems checking the package's natural-language specification.

The embedding uses exact rationals (`ℚ`) for the Go floating-point carrier and
keeps the source's control flow.  The two transcendental scalars the search
code computes once per call — the haversine/planar distance metric and the
kilometers-per-degree-longitude value `LonKilos(pt.Lat)` /
`LookupLonKmPerLat(pt.Lat)` — are taken as explicit parameters (`dist`,
`lonKm`), exactly where the Go code binds them to local variables; every use
site mirrors the source.
-/

namespace Geo

/-- Embedding of `type Point[T Float] struct { Lat, Lon T }` (geo.go). -/
structure Point where
  Lat : ℚ
  Lon : ℚ
deriving DecidableEq

instance : Inhabited Point := ⟨⟨0, 0⟩⟩

/-- Embedding of `func (p Point[T]) Less(x Point[T]) bool`: latitude first,
longitude as secondary sort (geo.go). -/
def Point.Less (p x : Point) : Bool :=
  if p.Lat < x.Lat then true
  else if x.Lat < p.Lat then false
  else decide (p.Lon < x.Lon)

/-- Embedding of the constant `DegreeToKilometer = 111.111` (geo.go). -/
def DegreeToKilometer : ℚ := 111111 / 1000

/-- Embedding of `func between[T Float](check, min, max T) bool` (geo.go). -/
def between (check lo hi : ℚ) : Bool :=
  decide (lo ≤ check) && decide (check ≤ hi)

/-- Embedding of `type Pair[T Float] [2]T` (geo.go). -/
abbrev Pair := ℚ × ℚ

/-- Embedding of `type Rect[T Float] [2]Pair[T]` (geo.go). -/
abbrev Rect := Pair × Pair

/-- Embedding of `func LongitudeKilometerDegrees[T](lat, kilometers T)`,
which returns `kilometers / LonKilos(lat)`.  The transcendental value
`LonKilos(lat) = cos(lat·π/180)·111.111` is passed in as `lonKilosLat`
(geo.go). -/
def LongitudeKilometerDegrees (lonKilosLat kilometers : ℚ) : ℚ :=
  kilometers / lonKilosLat

/-- Embedding of `func Expand[T Float](lat, lon T, radiusKM T) Rect[T]`
(geo.go).  Note the source computes `latx := radiusKM / lon` — dividing the
radius by the *longitude argument*, not by `DegreeToKilometer`. -/
def Expand (lonKilosLat lat lon radiusKM : ℚ) : Rect :=
  let latx := radiusKM / lon
  let lonx := LongitudeKilometerDegrees lonKilosLat radiusKM
  ((lat - latx, lon - lonx), (lat + latx, lon + lonx))

/-- Go's float-to-int conversion `int(q)` truncates toward zero. -/
def truncInt (q : ℚ) : ℤ :=
  if 0 ≤ q then ⌊q⌋ else ⌈q⌉

/-- Index computed by `LookupLonKmPerLat`: `idx := int(lat * 10)` (geo.go). -/
def lonKmIdx (lat : ℚ) : ℤ := truncInt (lat * 10)

/-- Embedding of `func LookupLonKmPerLat[T Float](lat T) T`, which reads
`lonKmLookup[idx]` for `idx := int(lat * 10)` over the 901-entry table.  The
table's contents (cosine values filled in by the package's start-up code) are
abstracted as `table`; an access outside `[0, 901)` is a Go runtime panic,
modelled as `none` (geo.go). -/
def LookupLonKmPerLat (table : ℤ → ℚ) (lat : ℚ) : Option ℚ :=
  let idx := lonKmIdx lat
  if 0 ≤ idx ∧ idx < 901 then some (table idx) else none

/-- Embedding of Go's `sort.Search` binary-search loop body
(`i, j := 0, n; for i < j { h := (i+j)/2; if !f(h) { i = h+1 } else { j = h } }`).
The fuel argument only bounds the iteration count; `sortSearch` supplies
fuel `n`, which is at least the initial `j - i`, and each iteration shrinks
`j - i` by at least one, so the fuel never runs out before `i = j`. -/
def searchAux (f : ℕ → Bool) : ℕ → ℕ → ℕ → ℕ
  | 0, i, _ => i
  | fuel+1, i, j =>
    if i < j then
      let h := (i + j) / 2
      if f h then searchAux f fuel i h
      else searchAux f fuel (h+1) j
    else i

/-- Embedding of `sort.Search(n, f)`. -/
def sortSearch (n : ℕ) (f : ℕ → Bool) : ℕ := searchAux f n 0 n

/-- Binary-search seed shared verbatim by `Bestest` and `Closest`:
`x := sort.Search(g.Len(), func(i int) bool { return pt.Less(g.IndexPoint(i)) })`
(geo.go). -/
def seedIndex (pts : List Point) (pt : Point) : ℕ :=
  sortSearch pts.length (fun i => Point.Less pt (pts.getD i default))

/-- Embedding of `func (m *Iter[T]) Len() int { return len(m.m.B)/m.d.Size() }`
(mmap.go).  `bufLen` is the mapped buffer's byte length, `s` the decoder's
record size. -/
def Iter.Len (B : List ℕ) (s : ℕ) : ℕ := B.length / s

/-- Byte range decoded by `Iter.IndexPoint`/`Iter.Load`:
`off := m.d.Size()*i; end := off + m.d.Size(); m.d.Decode(m.m.B[off:end])`
(mmap.go), as a slice of the buffer. -/
def recordSlice (B : List ℕ) (s i : ℕ) : List ℕ :=
  (B.drop (s * i)).take s

theorem searchAux_le (f : ℕ → Bool) :
    ∀ (fuel i j : ℕ), i ≤ j → searchAux f fuel i j ≤ j := by
  intro fuel
  induction fuel with
  | zero => intro i j h; simpa [searchAux] using h
  | succ fuel ih =>
    intro i j h
    simp only [searchAux]
    split
    · split
      · exact le_trans (ih _ _ (by omega)) (by omega)
      · exact ih _ _ (by omega)
    · exact h

theorem sortSearch_le (n : ℕ) (f : ℕ → Bool) : sortSearch n f ≤ n :=
  searchAux_le f n 0 n (Nat.zero_le n)

/-- C10: for record size `s > 0`, the store's `Len()` is the floor of
buffer-length over record size, and for any index `i < Len()` the decoded
byte range `[i*s, (i+1)*s)` lies entirely inside the buffer and has exactly
`s` bytes — a trailing incomplete record is excluded from the sequence and
never causes an out-of-bounds read. -/
theorem iter_len_indexPoint_inbounds (B : List ℕ) (s i : ℕ)
    (hs : 0 < s) (hi : i < Iter.Len B s) :
    Iter.Len B s = B.length / s ∧ s * i + s ≤ B.length ∧
      (recordSlice B s i).length = s := by
  have hmul : s * i + s ≤ B.length := by
    have h2 : (i + 1) * s ≤ B.length :=
      (Nat.le_div_iff_mul_le hs).mp hi
    calc s * i + s = (i + 1) * s := by ring
    _ ≤ B.length := h2
  refine ⟨rfl, hmul, ?_⟩
  have hlen : (recordSlice B s i).length = min s (B.length - s * i) := by
    simp [recordSlice]
  rw [hlen]
  generalize hk : s * i = k at hmul ⊢
  omega

theorem iter_len_indexPoint_inbounds_witness :
    Iter.Len [7, 7, 7, 7, 7] 2 = [7, 7, 7, 7, 7].length / 2 ∧
      2 * 1 + 2 ≤ [7, 7, 7, 7, 7].length ∧
      (recordSlice [7, 7, 7, 7, 7] 2 1).length = 2 :=
  iter_len_indexPoint_inbounds [7, 7, 7, 7, 7] 2 1 (by decide) (by decide)

/-- C3: refuted as stated.  `Expand` does not use the latitude half-width
`radiusKM / DegreeToKilometer`: the source computes `latx := radiusKM / lon`,
dividing by the longitude argument.  At `lat = 10`, `lon = 2`,
`radiusKM = 50` (with any longitude scale, here `lonKilosLat = 100`) the
latitude half-width is `25`, not `50 / 111.111`. -/
theorem expand_lat_halfwidth_wrong :
    Expand 100 10 2 50 = ((-15, 3/2), (35, 5/2)) ∧
      ((35 : ℚ) - 10 ≠ 50 / DegreeToKilometer) := by
  constructor
  · norm_num [Expand, LongitudeKilometerDegrees]
  · norm_num [DegreeToKilometer]

/-- C7: refuted as stated.  `LookupLonKmPerLat` computes `idx := int(lat*10)`,
which is negative for any `lat ≤ -0.1`; the table access is then out of
bounds even though `|lat| < 90.1`.  Concretely `lat = -10` gives index
`-100`, a panic in the source. -/
theorem lookupLonKmPerLat_negative_oob :
    (-(901/10) : ℚ) < -10 ∧ (-10 : ℚ) < 901/10 ∧
      LookupLonKmPerLat (fun _ => 0) (-10) = none := by
  refine ⟨by norm_num, by norm_num, ?_⟩
  have hidx : lonKmIdx (-10) = -100 := by
    have hc : ⌈((-100 : ℤ) : ℚ)⌉ = (-100 : ℤ) := Int.ceil_intCast (-100)
    norm_num at hc
    rw [lonKmIdx, truncInt]
    norm_num [hc]
  simp [LookupLonKmPerLat, hidx]

/-- C7, amended: the table access is in bounds exactly for the latitudes
whose truncated index lands in `[0, 901)`, namely `-0.1 < lat < 90.1`
(truncation toward zero sends `(-0.1, 0)` to index `0`); for
`lat ≤ -0.1` the index is negative and the access fails. -/
theorem lookupLonKmPerLat_inbounds (table : ℤ → ℚ) (lat : ℚ)
    (h1 : -(1/10) < lat) (h2 : lat < 901/10) :
    (LookupLonKmPerLat table lat).isSome = true := by
  have hbound : 0 ≤ lonKmIdx lat ∧ lonKmIdx lat < 901 := by
    rw [lonKmIdx, truncInt]
    split
    · constructor
      · exact Int.floor_nonneg.mpr (by assumption)
      · exact Int.floor_lt.mpr (by push_cast; linarith)
    · constructor
      · have : (-1 : ℚ) < lat * 10 := by linarith
        have h3 : (-1 : ℤ) < ⌈lat * 10⌉ := Int.lt_ceil.mpr (by push_cast; linarith)
        omega
      · have h4 : ⌈lat * 10⌉ ≤ 0 := Int.ceil_le.mpr (by push_cast; linarith)
        omega
  simp [LookupLonKmPerLat, hbound.1, hbound.2]

theorem lookupLonKmPerLat_inbounds_witness :
    (LookupLonKmPerLat (fun _ => 7) (-(1/20))).isSome = true :=
  lookupLonKmPerLat_inbounds (fun _ => 7) (-(1/20)) (by norm_num) (by norm_num)

/-- Mutable state of the bidirectional scan shared by `Bestest` and `Closest`:
`best`, `closest`, the latitude cut-off (`minLat` during the backward sweep,
`maxLat` during the forward sweep — here one field `latBound`), and the
longitude-corridor half-width `deltaLon` (geo.go). -/
structure SearchState where
  best : ℕ
  closest : ℚ
  latBound : ℚ
  deltaLon : ℚ
deriving DecidableEq

/-- Embedding of the closure
`lonOutside := func(lon T) bool { maxLon := pt.Lon + deltaLon; minLon := pt.Lon - deltaLon; return lon < minLon || lon > maxLon }`
(geo.go).  The Go closure reads the *current* `deltaLon` variable, so the
embedding passes the current state's value at each call site. -/
def lonOutside (ptLon deltaLon lon : ℚ) : Bool :=
  decide (lon < ptLon - deltaLon) || decide (ptLon + deltaLon < lon)

/-- Embedding of the backward sweep
`for i := x - 1; i > 0; i-- { ... }` of both `Bestest` and `Closest`
(the two loop bodies are textually identical up to the metric; `dist` is the
metric, applied as `pt.Distance(this)` resp. `pt.Approximately(this)`):
break when `this.Lat < minLat`; skip when `lonOutside(this.Lon)`; on an
improvement set `closest`, `best`, `minLat = pt.Lat - closest/DegreeToKilometer`
and `deltaLon = closest/lonKmPerDegree` (geo.go).  The first argument of the
recursion is the current index; note the Go loop condition `i > 0` stops
*before* index 0. -/
def backLoop (dist : Point → Point → ℚ) (lonKm : ℚ) (pts : List Point)
    (pt : Point) : ℕ → SearchState → SearchState
  | 0, s => s
  | i+1, s =>
    let this := pts.getD (i+1) default
    if this.Lat < s.latBound then s
    else if lonOutside pt.Lon s.deltaLon this.Lon then
      backLoop dist lonKm pts pt i s
    else
      let d := dist pt this
      if d < s.closest then
        backLoop dist lonKm pts pt i
          ⟨i+1, d, pt.Lat - d / DegreeToKilometer, d / lonKm⟩
      else backLoop dist lonKm pts pt i s

/-- Embedding of the forward sweep
`for i := x + 1; i < g.Len(); i++ { ... }` of both `Bestest` and `Closest`
(`dist` applied as `this.Distance(pt)` resp. `this.Approximately(pt)`):
break when `this.Lat > maxLat`; skip when `lonOutside(this.Lon)`; on an
improvement set `best`, `closest` and `maxLat = pt.Lat + dist/DegreeToKilometer`
— and, unlike the backward sweep, leave `deltaLon` untouched (geo.go).
The fuel argument counts the remaining indices `g.Len() - i`, so fuel `0`
is exactly the loop exit `i = g.Len()`. -/
def fwdLoop (dist : Point → Point → ℚ) (lonKm : ℚ) (pts : List Point)
    (pt : Point) : ℕ → ℕ → SearchState → SearchState
  | 0, _, s => s
  | fuel+1, i, s =>
    let this := pts.getD i default
    if s.latBound < this.Lat then s
    else if lonOutside pt.Lon s.deltaLon this.Lon then
      fwdLoop dist lonKm pts pt fuel (i+1) s
    else
      let d := dist this pt
      if d < s.closest then
        fwdLoop dist lonKm pts pt fuel (i+1)
          ⟨i, d, pt.Lat + d / DegreeToKilometer, s.deltaLon⟩
      else fwdLoop dist lonKm pts pt fuel (i+1) s

/-- Embedding of `func Bestest[T Float](g GeoPoints[T], pt Point[T], deltaKm T) (int, T)`
(geo.go).  `dist` stands for the haversine metric `Point.Distance` and
`lonKm` for `LonKilos(float64(pt.Lat))`, both bound once in the source.
Control flow follows the source line by line: seed `x` by binary search,
return `(g.Len(), -1)` when `x == g.Len()`; otherwise seed
`closest := deltaKm + 0.0001`, `best := g.Len()`, take the first hit at `x`
if it beats the seed, then sweep backward from `x-1` and forward from `x+1`. -/
def Bestest (dist : Point → Point → ℚ) (lonKm : ℚ) (pts : List Point)
    (pt : Point) (deltaKm : ℚ) : ℕ × ℚ :=
  let x := seedIndex pts pt
  if x = pts.length then (x, -1)
  else
    let minLat := pt.Lat - deltaKm / DegreeToKilometer
    let this := pts.getD x default
    let d := dist this pt
    let seed : ℕ × ℚ :=
      if d < deltaKm + 1/10000 then (x, d)
      else (pts.length, deltaKm + 1/10000)
    let deltaLon := seed.2 / lonKm
    let s := backLoop dist lonKm pts pt (x - 1) ⟨seed.1, seed.2, minLat, deltaLon⟩
    let s2 := fwdLoop dist lonKm pts pt (pts.length - (x+1)) (x+1)
      ⟨s.best, s.closest, pt.Lat + s.closest / DegreeToKilometer, s.deltaLon⟩
    (s2.best, s2.closest)

/-- Embedding of `func Closest[T Float](g GeoPoints[T], pt Point[T], deltaKm T) (int, T)`
(geo.go).  `dist` stands for the planar metric `Point.Approximately` and
`lonKm` for `LookupLonKmPerLat(float64(pt.Lat))`.  Unlike `Bestest` the seed
is unconditional: `best := x` and `closest := this.Approximately(pt)`
regardless of the radius. -/
def Closest (dist : Point → Point → ℚ) (lonKm : ℚ) (pts : List Point)
    (pt : Point) (deltaKm : ℚ) : ℕ × ℚ :=
  let x := seedIndex pts pt
  if x = pts.length then (x, -1)
  else
    let minLat := pt.Lat - deltaKm / DegreeToKilometer
    let this := pts.getD x default
    let closest := dist this pt
    let deltaLon := closest / lonKm
    let s := backLoop dist lonKm pts pt (x - 1) ⟨x, closest, minLat, deltaLon⟩
    let s2 := fwdLoop dist lonKm pts pt (pts.length - (x+1)) (x+1)
      ⟨s.best, s.closest, pt.Lat + s.closest / DegreeToKilometer, s.deltaLon⟩
    (s2.best, s2.closest)

/-- C9: both search variants return the not-found sentinel `(0, -1)` on the
empty sequence — the binary search over length `0` yields `x = 0 = length`,
and both functions return before reading any element. -/
theorem search_empty_sentinel (dist : Point → Point → ℚ) (lonKm : ℚ)
    (pt : Point) (deltaKm : ℚ) :
    Bestest dist lonKm [] pt deltaKm = (0, -1) ∧
      Closest dist lonKm [] pt deltaKm = (0, -1) :=
  ⟨rfl, rfl⟩

/-- C1: refuted as stated.  When the binary search succeeds (`x < length`)
but no examined point is within the radius, `Bestest` returns
`(length, deltaKm + 0.0001)` — the untouched seed — whose distance component
is *positive*, not the documented negative sentinel.  Here the single point
`(10,10)` is about 1565 km from the query `(0,0)` (the haversine value,
passed as the constant metric), far beyond the 1 km radius, and the result
is `(1, 1.0001)`. -/
theorem bestest_notfound_positive_distance :
    Bestest (fun _ _ => 1565) 111 [⟨10, 10⟩] ⟨0, 0⟩ 1 = (1, 10001/10000) ∧
      (0 : ℚ) < 10001/10000 := by
  constructor
  · norm_num [Bestest, seedIndex, sortSearch, searchAux, Point.Less, backLoop,
      fwdLoop, lonOutside, DegreeToKilometer]
  · norm_num

/-- C2: refuted as stated.  For the sorted singleton `[(0,0)]` and query
`(0,0)` — a point exactly equal to the query, at index 0 — `Bestest` with
radius `1 > 0` returns the not-found sentinel `(1, -1)`, not `(0, 0)`:
the binary-search predicate `pt.Less(h)` looks for the first *strictly
greater* point, so the equal point never lands at or after `x` (here
`x = 1 = length` and the search bails out); independently, the backward
sweep's `i > 0` bound never examines index 0.  The metric is the constant-0
function, consistent with `Distance(q, q) = 0` — it is never even called. -/
theorem bestest_exact_match_missed :
    Bestest (fun _ _ => 0) 111 [⟨0, 0⟩] ⟨0, 0⟩ 1 = (1, -1) ∧
      ((1 : ℕ), (-1 : ℚ)) ≠ ((0 : ℕ), (0 : ℚ)) :=
  ⟨rfl, by simp⟩

/-- C4: refuted as stated.  The seed `x` computed by `Bestest`/`Closest` is
`sort.Search` with predicate `pt.Less(point(i))`, i.e. the first index whose
point is *strictly greater* than the query — not the first index whose point
is not less than the query.  On `[(0,0)]` with query `(0,0)` the code yields
`x = 1`, yet the point at index `0` is not less than the query (it is equal),
so the claimed first-not-less index would be `0`. -/
theorem seedIndex_equal_point_overshoot :
    seedIndex [⟨0, 0⟩] ⟨0, 0⟩ = 1 ∧
      Point.Less (⟨0, 0⟩ : Point) ⟨0, 0⟩ = false :=
  ⟨rfl, rfl⟩

theorem backLoop_corridor_inv (dist : Point → Point → ℚ) (lonKm : ℚ)
    (pts : List Point) (pt : Point) :
    ∀ (i : ℕ) (s : SearchState), s.deltaLon = s.closest / lonKm →
      (backLoop dist lonKm pts pt i s).deltaLon
        = (backLoop dist lonKm pts pt i s).closest / lonKm := by
  intro i
  induction i with
  | zero => intro s h; simpa [backLoop] using h
  | succ i ih =>
    intro s h
    rw [backLoop]
    dsimp only
    split
    · exact h
    · split
      · exact ih s h
      · split
        · exact ih _ rfl
        · exact ih s h

theorem fwdLoop_deltaLon_const (dist : Point → Point → ℚ) (lonKm : ℚ)
    (pts : List Point) (pt : Point) :
    ∀ (fuel i : ℕ) (s : SearchState),
      (fwdLoop dist lonKm pts pt fuel i s).deltaLon = s.deltaLon := by
  intro fuel
  induction fuel with
  | zero => intro i s; rfl
  | succ fuel ih =>
    intro i s
    rw [fwdLoop]
    dsimp only
    split
    · rfl
    · split
      · exact ih (i+1) s
      · split
        · exact ih (i+1) _
        · exact ih (i+1) s

/-- C5: refuted as stated.  In the *forward* sweep of both variants an
improvement of the running best does not shrink the corridor: here the
initial state satisfies the corridor invariant `deltaLon = closest / lonKm`
(`10 = 10 / 1`), the sweep improves `closest` from `10` to `1`, yet
`deltaLon` stays `10 ≠ 1 / 1`. -/
theorem corridor_forward_stale :
    ((⟨5, 10, 100, 10⟩ : SearchState).deltaLon
        = (⟨5, 10, 100, 10⟩ : SearchState).closest / 1) ∧
      (fwdLoop (fun _ _ => 1) 1 [⟨0, 0⟩] ⟨0, 0⟩ 1 0 ⟨5, 10, 100, 10⟩).closest
        < (⟨5, 10, 100, 10⟩ : SearchState).closest ∧
      ¬ ((fwdLoop (fun _ _ => 1) 1 [⟨0, 0⟩] ⟨0, 0⟩ 1 0 ⟨5, 10, 100, 10⟩).deltaLon
        = (fwdLoop (fun _ _ => 1) 1 [⟨0, 0⟩] ⟨0, 0⟩ 1 0 ⟨5, 10, 100, 10⟩).closest / 1) := by
  refine ⟨by norm_num, ?_, ?_⟩ <;>
    norm_num [fwdLoop, lonOutside, DegreeToKilometer]

/-- C5, amended: only the backward sweep maintains the corridor invariant —
if the state enters the backward sweep with `deltaLon = closest / lonKm`,
every improvement there recomputes `deltaLon`, and the invariant holds on
exit; the forward sweep of both variants never updates `deltaLon` at all,
so it uses the corridor width inherited from the backward sweep throughout. -/
theorem corridor_update_backward_only (dist : Point → Point → ℚ) (lonKm : ℚ)
    (pts : List Point) (pt : Point) (i fuel k : ℕ) (s : SearchState)
    (hinv : s.deltaLon = s.closest / lonKm) :
    ((backLoop dist lonKm pts pt i s).deltaLon
        = (backLoop dist lonKm pts pt i s).closest / lonKm) ∧
      (fwdLoop dist lonKm pts pt fuel k s).deltaLon = s.deltaLon :=
  ⟨backLoop_corridor_inv dist lonKm pts pt i s hinv,
   fwdLoop_deltaLon_const dist lonKm pts pt fuel k s⟩

theorem corridor_update_backward_only_witness :
    ((backLoop (fun _ _ => 1) 2 [⟨0, 0⟩, ⟨0, 1⟩] ⟨0, 0⟩ 1 ⟨9, 4, -5, 2⟩).deltaLon
        = (backLoop (fun _ _ => 1) 2 [⟨0, 0⟩, ⟨0, 1⟩] ⟨0, 0⟩ 1 ⟨9, 4, -5, 2⟩).closest / 2) ∧
      (fwdLoop (fun _ _ => 1) 2 [⟨0, 0⟩, ⟨0, 1⟩] ⟨0, 0⟩ 0 5 ⟨9, 4, -5, 2⟩).deltaLon
        = (⟨9, 4, -5, 2⟩ : SearchState).deltaLon :=
  corridor_update_backward_only (fun _ _ => 1) 2 [⟨0, 0⟩, ⟨0, 1⟩] ⟨0, 0⟩ 1 0 5
    ⟨9, 4, -5, 2⟩ (by norm_num)

/-- Outcome of a `Ranger` call: `ok` is the nil error return, `notFound` is
`ErrNotFound`, and `oob` marks an out-of-bounds record access — the Go slice
panic raised by `Load` when the forward walk runs past the last record
(mmap.go). -/
inductive RangerOutcome
  | ok
  | notFound
  | oob
deriving DecidableEq

/-- Embedding of the optional containment filter of `Ranger`:
`ctr == nil || ctr.ContainsPoint(m.d.Point())` (mmap.go). -/
def acceptCtr (ctr : Option (Point → Bool)) (p : Point) : Bool :=
  match ctr with
  | none => true
  | some c => c p

/-- Embedding of the forward walk of `Ranger` (mmap.go):
`for { m.Load(idx); if !m.Less(to) { break }; pt := ...; if between(pt.Lon, from.Lon, to.Lon) { if ctr == nil || ctr.ContainsPoint(...) { fn(m.d) } }; idx++ }`.
The source loop has no index bound; the fuel argument counts the records
left before the walk would decode index `Len()`, so exhausting the fuel is
exactly the source's out-of-bounds decode.  Records are collected in
callback order. -/
def rangerLoop (pts : List Point) (fromP toP : Point)
    (ctr : Option (Point → Bool)) : ℕ → ℕ → List Point × RangerOutcome
  | 0, _ => ([], RangerOutcome.oob)
  | fuel+1, idx =>
    let this := pts.getD idx default
    if Point.Less this toP then
      let rest := rangerLoop pts fromP toP ctr fuel (idx+1)
      if between this.Lon fromP.Lon toP.Lon && acceptCtr ctr this then
        (this :: rest.1, rest.2)
      else rest
    else ([], RangerOutcome.ok)

/-- Embedding of
`func (m *Iter[T]) Ranger(from, to Point[T], fn func(interface{}), ctr Container[T]) error`
(mmap.go): binary-search the first index whose point is strictly greater
than `from`, return `ErrNotFound` when there is none, else walk forward. -/
def Ranger (pts : List Point) (fromP toP : Point)
    (ctr : Option (Point → Bool)) : List Point × RangerOutcome :=
  let size := pts.length
  let idx := sortSearch size (fun i => Point.Less fromP (pts.getD i default))
  if idx = size then ([], RangerOutcome.notFound)
  else rangerLoop pts fromP toP ctr (size - idx) idx

/-- C6: refuted — the code reads out of bounds.  With the single record
`(0,0)`, `from = (-1,0)` and `to = (10,10)`, the seed index is `0 < Len`,
the record at index 0 is less than `to` and is passed to the callback, and
the loop then decodes index `1 = Len()`: a read past the end of the buffer
(a slice panic in the source), because the walk `for { m.Load(idx); ... }`
never checks `idx` against `Len()`. -/
theorem ranger_reads_past_end :
    Ranger [⟨0, 0⟩] ⟨-1, 0⟩ ⟨10, 10⟩ none
      = ([⟨0, 0⟩], RangerOutcome.oob) := by
  rfl

theorem rangerLoop_mem (pts : List Point) (fromP toP : Point)
    (ctr : Option (Point → Bool)) :
    ∀ (fuel idx : ℕ) (r : Point),
      r ∈ (rangerLoop pts fromP toP ctr fuel idx).1 →
      ∃ j, idx ≤ j ∧ j < idx + fuel ∧ r = pts.getD j default ∧
        Point.Less r toP = true ∧ between r.Lon fromP.Lon toP.Lon = true := by
  intro fuel
  induction fuel with
  | zero => intro idx r hr; simp [rangerLoop] at hr
  | succ fuel ih =>
    intro idx r hr
    rw [rangerLoop] at hr
    dsimp only at hr
    split at hr
    · split at hr
      · rcases List.mem_cons.mp hr with hEq | hmem
        · subst hEq
          refine ⟨idx, le_refl _, by omega, rfl, by assumption, ?_⟩
          have hand := Bool.and_eq_true_iff.mp (by assumption)
          exact hand.1
        · obtain ⟨j, hj1, hj2, hj3, hj4, hj5⟩ := ih (idx+1) r hmem
          exact ⟨j, by omega, by omega, hj3, hj4, hj5⟩
      · obtain ⟨j, hj1, hj2, hj3, hj4, hj5⟩ := ih (idx+1) r hr
        exact ⟨j, by omega, by omega, hj3, hj4, hj5⟩
    · simp at hr

theorem rangerLoop_pairwise (pts : List Point) (fromP toP : Point)
    (ctr : Option (Point → Bool))
    (hs : pts.Pairwise (fun a b => Point.Less b a = false)) :
    ∀ (fuel idx : ℕ), idx + fuel ≤ pts.length →
      ((rangerLoop pts fromP toP ctr fuel idx).1).Pairwise
        (fun a b => Point.Less b a = false) := by
  intro fuel
  induction fuel with
  | zero => intro idx h; simp [rangerLoop]
  | succ fuel ih =>
    intro idx h
    rw [rangerLoop]
    dsimp only
    split
    · split
      · refine List.Pairwise.cons ?_ (ih (idx+1) (by omega))
        intro b hb
        obtain ⟨j, hj1, hj2, hj3, hj4, hj5⟩ :=
          rangerLoop_mem pts fromP toP ctr fuel (idx+1) b hb
        subst hj3
        have hjlen : j < pts.length := by omega
        have hidxlen : idx < pts.length := by omega
        rw [List.getD_eq_getElem _ _ hjlen, List.getD_eq_getElem _ _ hidxlen]
        exact List.pairwise_iff_getElem.mp hs idx j hidxlen hjlen (by omega)
      · exact ih (idx+1) (by omega)
    · exact List.Pairwise.nil

/-- C8: for a sequence sorted under the `Point` order and bounds with
`from ≤ to`, every record `Ranger` passes to the callback is strictly less
than `to` under the `Point` order and has longitude inside
`[from.Lon, to.Lon]`, and the emitted sequence is non-decreasing under the
`Point` order. -/
theorem ranger_ordered_window (pts : List Point) (fromP toP : Point)
    (ctr : Option (Point → Bool)) (r : Point)
    (hs : pts.Pairwise (fun a b => Point.Less b a = false))
    (hft : Point.Less toP fromP = false)
    (hr : r ∈ (Ranger pts fromP toP ctr).1) :
    ((Ranger pts fromP toP ctr).1).Pairwise (fun a b => Point.Less b a = false) ∧
      between r.Lon fromP.Lon toP.Lon = true ∧ Point.Less r toP = true := by
  have hle : sortSearch pts.length (fun i => Point.Less fromP (pts.getD i default))
      ≤ pts.length := sortSearch_le _ _
  by_cases hidx :
      sortSearch pts.length (fun i => Point.Less fromP (pts.getD i default))
        = pts.length
  · rw [Ranger] at hr
    rw [if_pos hidx] at hr
    simp at hr
  · rw [Ranger] at hr ⊢
    rw [if_neg hidx] at hr ⊢
    have hfuel :
        sortSearch pts.length (fun i => Point.Less fromP (pts.getD i default))
            + (pts.length
              - sortSearch pts.length (fun i => Point.Less fromP (pts.getD i default)))
          ≤ pts.length := le_of_eq (Nat.add_sub_cancel' hle)
    refine ⟨rangerLoop_pairwise pts fromP toP ctr hs _ _ hfuel, ?_, ?_⟩
    · obtain ⟨j, _, _, _, h4, h5⟩ := rangerLoop_mem pts fromP toP ctr _ _ r hr
      exact h5
    · obtain ⟨j, _, _, _, h4, h5⟩ := rangerLoop_mem pts fromP toP ctr _ _ r hr
      exact h4

theorem ranger_ordered_window_witness :
    ((Ranger [⟨0, 0⟩, ⟨1, 1⟩, ⟨5, 5⟩] ⟨0, 0⟩ ⟨2, 2⟩ none).1).Pairwise
        (fun a b => Point.Less b a = false) ∧
      between (⟨1, 1⟩ : Point).Lon (⟨0, 0⟩ : Point).Lon (⟨2, 2⟩ : Point).Lon = true ∧
      Point.Less ⟨1, 1⟩ ⟨2, 2⟩ = true :=
  ranger_ordered_window [⟨0, 0⟩, ⟨1, 1⟩, ⟨5, 5⟩] ⟨0, 0⟩ ⟨2, 2⟩ none ⟨1, 1⟩
    (by decide) (by decide) (by decide)

end Geo
